import Mathlib

/-!
Verification development for the milkfish image color quantization scripts.

The embedded code is src/color_quantizer.py (per-channel uniform shade
quantization) and src/shader_down.py (palette quantization through KMeans
clustering).  Pixel buffers are modelled as lists of 8-bit sample triples;
numpy float64 arithmetic is modelled exactly over the rationals, with
np.floor as the integer floor and astype(np.uint8) as truncation toward
zero followed by a wrap modulo 256.  The KMeans clustering itself lives in
sklearn, outside this repository, and is modelled from the spec where
indicated.
-/

namespace Milkfish

/-- An 8-bit RGB sample triple (r, g, b). -/
abbrev RGB := ℕ × ℕ × ℕ

/-- An RGBA pixel: an RGB triple paired with its alpha sample. -/
abbrev RGBA := RGB × ℕ

/-- A rational-valued RGB triple, used for centroid arithmetic. -/
abbrev QRGB := ℚ × ℚ × ℚ

/-- All three samples of a pixel fit in 8 bits. -/
def valid8 (p : RGB) : Prop := p.1 < 256 ∧ p.2.1 < 256 ∧ p.2.2 < 256

instance (p : RGB) : Decidable (valid8 p) :=
  decidable_of_iff (p.1 < 256 ∧ p.2.1 < 256 ∧ p.2.2 < 256) Iff.rfl

/-- Truncation of a rational toward zero (the C float-to-integer conversion). -/
def truncQ (q : ℚ) : ℤ := if 0 ≤ q then ⌊q⌋ else ⌈q⌉

/-- numpy astype(np.uint8) applied to a float value: truncate toward zero,
then wrap modulo 256. -/
def astypeUint8 (q : ℚ) : ℕ := ((truncQ q) % 256).toNat

/-- Per-sample arithmetic of color_quantizer.quantize_colors lines 42 to 48:
divide the sample by 255, multiply by num_shades, take np.floor, divide by
(num_shades - 1), multiply by 255 and cast the result with astype(np.uint8). -/
def uqCore (N v : ℕ) : ℕ :=
  astypeUint8 ((((⌊((v : ℚ) / 255) * (N : ℚ)⌋ : ℤ) : ℚ) / ((N : ℚ) - 1)) * 255)

/-- The same per-sample computation with the division made fallible: for
num_shades = 1 the code divides by zero, which numpy propagates as inf or
nan; that undefined sample is modelled as none. -/
def uqSample (N v : ℕ) : Option ℕ :=
  if (N : ℚ) - 1 = 0 then none else some (uqCore N v)

/-- Channel-wise uniform quantization of one RGB pixel. -/
def uqRGB (N : ℕ) (p : RGB) : RGB := (uqCore N p.1, uqCore N p.2.1, uqCore N p.2.2)

/-- Uniform quantization of an RGB buffer (the vectorized numpy expression). -/
def uniformQuantizeRGB (N : ℕ) (pts : List RGB) : List RGB := pts.map (uqRGB N)

/-- Alpha split of color_quantizer.quantize_colors lines 27 to 30: the RGB
part and the alpha channel, extracted pixel by pixel. -/
def splitRGBA (img : List RGBA) : List RGB × List ℕ :=
  (img.map Prod.fst, img.map Prod.snd)

/-- putalpha of line 53 and the channel stacking of shader_down lines 78 to 80:
reattach an alpha channel to an RGB buffer at matching pixel positions. -/
def mergeRGBA (rgb : List RGB) (alpha : List ℕ) : List RGBA := rgb.zip alpha

/-- The RGBA path of color_quantizer.quantize_colors: split the alpha channel
off, quantize the RGB part, reattach the original alpha. -/
def uniformQuantizeRGBA (N : ℕ) (img : List RGBA) : List RGBA :=
  mergeRGBA (uniformQuantizeRGB N (splitRGBA img).1) (splitRGBA img).2

/-- The spec formula for a Uniform Quantizer output sample (spec section 4.3,
step 4): round the rescaled level to the nearest integer and clamp it to
[0, 255].  Stated only for comparison with uqCore, which embeds the code. -/
def uqSpecSample (N v : ℕ) : ℕ :=
  (min 255 (max 0 (round ((((⌊((v : ℚ) / 255) * (N : ℚ)⌋ : ℤ) : ℚ) / ((N : ℚ) - 1)) * 255)))).toNat

/-- The uint8 value the code produces for shade level l of an N-shade grid:
l * 255 / (N - 1) truncated by the astype cast. -/
def gridVal (N l : ℕ) : ℕ := (⌊((l : ℚ) * 255) / ((N : ℚ) - 1)⌋).toNat

/-- np.unique(..., axis=0) row count: the number of distinct RGB triples. -/
def countUnique (l : List RGB) : ℕ := l.dedup.length

/-- color_quantizer.main lines 87 to 91: once the image loads, quantize_colors
runs and save_image is called unconditionally; no shade-count validation
exists on this path.  The written file is modelled as the per-pixel RGB
results (an undefined sample makes the pixel none) together with the alpha
samples reattached by putalpha. -/
def uniformMainSave (N : ℕ) (img : List RGBA) : Option (List (Option RGB) × List ℕ) :=
  some
    ((img.map Prod.fst).map (fun p =>
      match uqSample N p.1, uqSample N p.2.1, uqSample N p.2.2 with
      | some a, some b, some c => some (a, b, c)
      | _, _, _ => none),
     img.map Prod.snd)

/-- Cast a pixel to its rational triple. -/
def toQ (p : RGB) : QRGB := ((p.1 : ℚ), (p.2.1 : ℚ), (p.2.2 : ℚ))

/-- Squared Euclidean distance in RGB space between a centroid and a pixel. -/
def dist2 (c : QRGB) (p : RGB) : ℚ :=
  (c.1 - (p.1 : ℚ)) ^ 2 + (c.2.1 - (p.2.1 : ℚ)) ^ 2 + (c.2.2 - (p.2.2 : ℚ)) ^ 2

/-- Index of the centroid nearest to a pixel, earliest index on ties
(0 for an empty centroid list). -/
def nearestIdx (cs : List QRGB) (p : RGB) : ℕ :=
  (((List.range cs.length).argmin fun j => dist2 (cs.getD j (0, 0, 0)) p).getD 0)

/-- Per-channel mean of a list of pixels (the cluster centroid). -/
def meanRGB (l : List RGB) : QRGB :=
  ((l.map fun p => (p.1 : ℚ)).sum / l.length,
   (l.map fun p => (p.2.1 : ℚ)).sum / l.length,
   (l.map fun p => (p.2.2 : ℚ)).sum / l.length)

/-- Helper of lloydUpdate: the new centroid of one cluster is the mean of its
members; a centroid whose cluster is empty is kept unchanged. -/
def updateEntry (m : List RGB) (old : QRGB) : QRGB :=
  if m = [] then old else meanRGB m

/-- One Lloyd update: reassign every pixel to its nearest centroid and replace
each centroid by the per-channel mean of its members. -/
def lloydUpdate (pts : List RGB) (cs : List QRGB) : List QRGB :=
  (List.range cs.length).map fun j =>
    updateEntry (pts.filter fun p => nearestIdx cs p = j) (cs.getD j (0, 0, 0))

/-- Lloyd iteration with fuel, stopping when the centroids are stable. -/
def lloydIter (pts : List RGB) : ℕ → List QRGB → List QRGB
  | 0, cs => cs
  | n + 1, cs =>
    if lloydUpdate pts cs = cs then cs else lloydIter pts n (lloydUpdate pts cs)

/-- Modelled from the spec: the initialization policy of sklearn KMeans is not
part of this repository; spec section 4.4 only requires a deterministic seeded
policy, modelled here as the distinct input colors rotated by the seed,
truncated to the requested cluster count. -/
def kmeansInit (seed k : ℕ) (pts : List RGB) : List QRGB :=
  (((pts.dedup).rotate (seed % max 1 pts.dedup.length)).take k).map toQ

/-- Modelled from the spec: sklearn.cluster.KMeans is external to this
repository.  Spec section 4.4 describes it as a deterministic, seeded,
partition-based clustering of the RGB samples minimizing within-cluster
squared Euclidean distance; it is modelled as seeded Lloyd iteration (fuel
300, the sklearn max_iter default) followed by a final assignment, the
returned centroids being the per-channel means of the finally assigned
members. -/
def kmeansSpec (seed k : ℕ) (pts : List RGB) : List ℕ × List QRGB :=
  (pts.map (nearestIdx (lloydIter pts 300 (kmeansInit seed k pts))),
   lloydUpdate pts (lloydIter pts 300 (kmeansInit seed k pts)))

/-- shader_down.quantize_colors lines 55 to 58: the effective cluster count is
the requested one, capped at the number of distinct input colors. -/
def effectiveK (K : ℕ) (pts : List RGB) : ℕ :=
  if countUnique pts ≤ K then countUnique pts else K

/-- The float centroids returned by the clustering call of line 62 to 64. -/
def clusterCenters (seed K : ℕ) (pts : List RGB) : List QRGB :=
  (kmeansSpec seed (effectiveK K pts) pts).2

/-- The per-pixel cluster labels returned by fit_predict on line 63. -/
def clusterLabels (seed K : ℕ) (pts : List RGB) : List ℕ :=
  (kmeansSpec seed (effectiveK K pts) pts).1

/-- Truncate a float centroid to 8-bit samples, as centers.astype(np.uint8)
on line 67. -/
def truncRGB (c : QRGB) : RGB := (astypeUint8 c.1, astypeUint8 c.2.1, astypeUint8 c.2.2)

/-- The integer palette of shader_down line 67. -/
def clusterPalette (seed K : ℕ) (pts : List RGB) : List RGB :=
  (clusterCenters seed K pts).map truncRGB

/-- Pixel reconstruction of line 70: quantized_pixels = centers[labels], an
index of the training-time labels into the truncated palette. -/
def clusterOutput (seed K : ℕ) (pts : List RGB) : List RGB :=
  (clusterLabels seed K pts).map fun l => (clusterPalette seed K pts).getD l (0, 0, 0)

/-- The members of cluster j under the final assignment. -/
def clusterMembersFinal (seed K : ℕ) (pts : List RGB) (j : ℕ) : List RGB :=
  pts.filter fun p =>
    nearestIdx (lloydIter pts 300 (kmeansInit seed (effectiveK K pts) pts)) p = j

/-- shader_down.quantize_colors line 62 pins random_state to 42: the ambient
random state of the process never reaches the clustering call.  The first
argument models that ambient state. -/
def shaderDownRun (_ambientRng K : ℕ) (pts : List RGB) :
    List RGB × List ℕ × List RGB :=
  (clusterPalette 42 K pts, clusterLabels 42 K pts, clusterOutput 42 K pts)

/-- The RGBA path of shader_down.quantize_colors lines 42 to 48 and 73 to 81:
cluster on the RGB samples only, then stack the original alpha channel back. -/
def clusterQuantizeRGBA (K : ℕ) (img : List RGBA) : List RGBA :=
  mergeRGBA (clusterOutput 42 K (img.map Prod.fst)) (img.map Prod.snd)

/-- Python str.lower on a single character. -/
def pyLower (c : Char) : Char :=
  if 'A' ≤ c ∧ c ≤ 'Z' then Char.ofNat (c.toNat + 32) else c

/-- image_path.lower().endswith of color_quantizer.load_image line 10. -/
def endsWithPng (path : List Char) : Bool :=
  List.isSuffixOf ['.', 'p', 'n', 'g'] (path.map pyLower)

/-- color_quantizer.load_image lines 7 to 17: a path ending in .png (case
insensitively) is opened and converted to RGBA; any other file keeps the
native mode of the decoded image. -/
def loadImageMode (path native : List Char) : List Char :=
  if endsWithPng path then ['R', 'G', 'B', 'A'] else native

/-- color_quantizer.quantize_colors lines 25 and 51 to 55: the output image
has an alpha channel, hence 4 channels, exactly when the letter A occurs in
the loaded mode; otherwise it is 3-channel RGB. -/
def outputChannels (path native : List Char) : ℕ :=
  if 'A' ∈ loadImageMode path native then 4 else 3

/-- Pure natural-number form of the per-sample computation, used to evaluate
uqCore on concrete inputs (the rational arithmetic is exact, so for
num_shades at least 2 the two agree; proven below). -/
def uqNat (N v : ℕ) : ℕ := v * N / 255 * 255 / (N - 1) % 256

/-- Pure natural-number form of gridVal. -/
def gridValNat (N l : ℕ) : ℕ := l * 255 / (N - 1)

lemma floor_natCast_div_natCast (a b : ℕ) :
    ⌊((a : ℚ) / ((b : ℕ) : ℚ))⌋ = ((a / b : ℕ) : ℤ) := by
  have h := Rat.floor_intCast_div_natCast (a : ℤ) b
  rw [show (((a : ℤ) : ℚ)) = ((a : ℕ) : ℚ) by push_cast; ring] at h
  rw [h]
  exact (Int.natCast_div a b).symm

lemma astypeUint8_natDiv (a b : ℕ) :
    astypeUint8 ((a : ℚ) / ((b : ℕ) : ℚ)) = a / b % 256 := by
  unfold astypeUint8 truncQ
  rw [if_pos (div_nonneg (by positivity) (by positivity))]
  rw [floor_natCast_div_natCast]
  rw [show (((a / b : ℕ) : ℤ) % 256) = (((a / b % 256 : ℕ) : ℤ)) by push_cast; ring]
  exact Int.toNat_natCast _

lemma uqCore_eq_uqNat {N : ℕ} (h2 : 2 ≤ N) (v : ℕ) : uqCore N v = uqNat N v := by
  have h1 : (1 : ℕ) ≤ N := le_trans (by norm_num) h2
  unfold uqCore uqNat
  rw [show ((v : ℚ) / 255) * (N : ℚ) = ((v * N : ℕ) : ℚ) / ((255 : ℕ) : ℚ) by
    push_cast; ring]
  rw [floor_natCast_div_natCast]
  rw [show ((((v * N / 255 : ℕ) : ℤ) : ℚ) / ((N : ℚ) - 1)) * 255 =
      ((v * N / 255 * 255 : ℕ) : ℚ) / (((N - 1 : ℕ) : ℕ) : ℚ) by
    rw [show ((N : ℚ) - 1) = ((N - 1 : ℕ) : ℚ) by push_cast [h1]; ring]
    simp only [Int.cast_natCast, Nat.cast_mul, Nat.cast_ofNat]
    ring]
  exact astypeUint8_natDiv _ _

lemma gridVal_eq_gridValNat {N : ℕ} (h2 : 2 ≤ N) (l : ℕ) :
    gridVal N l = gridValNat N l := by
  have h1 : (1 : ℕ) ≤ N := le_trans (by norm_num) h2
  unfold gridVal gridValNat
  rw [show ((l : ℚ) * 255) / ((N : ℚ) - 1) = ((l * 255 : ℕ) : ℚ) / (((N - 1 : ℕ) : ℕ) : ℚ) by
    rw [show ((N : ℚ) - 1) = ((N - 1 : ℕ) : ℚ) by push_cast [h1]; ring]
    push_cast; ring]
  rw [floor_natCast_div_natCast]
  exact Int.toNat_natCast _

lemma uqSample_one (v : ℕ) : uqSample 1 v = none := by
  simp [uqSample]

lemma clusterOutput_length (seed K : ℕ) (pts : List RGB) :
    (clusterOutput seed K pts).length = pts.length := by
  simp [clusterOutput, clusterLabels, kmeansSpec]

lemma dist2_nonneg (c : QRGB) (p : RGB) : 0 ≤ dist2 c p := by
  unfold dist2
  positivity

lemma dist2_toQ_self (p : RGB) : dist2 (toQ p) p = 0 := by
  simp [dist2, toQ]

lemma dist2_toQ_eq_zero : ∀ {q p : RGB}, dist2 (toQ q) p = 0 → q = p := by
  rintro ⟨q1, q2, q3⟩ ⟨p1, p2, p3⟩ h
  unfold dist2 toQ at h
  simp only at h
  have s1 := sq_nonneg ((q1 : ℚ) - p1)
  have s2 := sq_nonneg ((q2 : ℚ) - p2)
  have s3 := sq_nonneg ((q3 : ℚ) - p3)
  have h1 : ((q1 : ℚ) - p1) ^ 2 = 0 := le_antisymm (by nlinarith) s1
  have h2 : ((q2 : ℚ) - p2) ^ 2 = 0 := le_antisymm (by nlinarith) s2
  have h3 : ((q3 : ℚ) - p3) ^ 2 = 0 := le_antisymm (by nlinarith) s3
  have e1 : q1 = p1 := by
    have := sub_eq_zero.mp ((pow_eq_zero_iff (by norm_num : (2 : ℕ) ≠ 0)).mp h1)
    exact_mod_cast this
  have e2 : q2 = p2 := by
    have := sub_eq_zero.mp ((pow_eq_zero_iff (by norm_num : (2 : ℕ) ≠ 0)).mp h2)
    exact_mod_cast this
  have e3 : q3 = p3 := by
    have := sub_eq_zero.mp ((pow_eq_zero_iff (by norm_num : (2 : ℕ) ≠ 0)).mp h3)
    exact_mod_cast this
  simp [e1, e2, e3]

lemma nearestIdx_lt_length {cs : List QRGB} (hne : cs ≠ []) (p : RGB) :
    nearestIdx cs p < cs.length := by
  unfold nearestIdx
  cases harg : (List.range cs.length).argmin fun j => dist2 (cs.getD j (0, 0, 0)) p with
  | none =>
    exfalso
    rw [List.argmin_eq_none, List.range_eq_nil] at harg
    exact hne (List.length_eq_zero.mp harg)
  | some j =>
    simp only [Option.getD_some]
    exact List.mem_range.mp (List.argmin_mem (Option.mem_def.mpr harg))

lemma nearestIdx_min {cs : List QRGB} {p : RGB} {i : ℕ} (hi : i < cs.length) :
    dist2 (cs.getD (nearestIdx cs p) (0, 0, 0)) p ≤ dist2 (cs.getD i (0, 0, 0)) p := by
  unfold nearestIdx
  cases harg : (List.range cs.length).argmin fun j => dist2 (cs.getD j (0, 0, 0)) p with
  | none =>
    exfalso
    rw [List.argmin_eq_none, List.range_eq_nil] at harg
    omega
  | some j =>
    simp only [Option.getD_some]
    exact List.le_of_mem_argmin (List.mem_range.mpr hi) (Option.mem_def.mpr harg)

lemma map_toQ_ne_nil {ds : List RGB} {p : RGB} (hm : p ∈ ds) : ds.map toQ ≠ [] := by
  simp only [ne_eq, List.map_eq_nil]
  rintro rfl
  exact List.not_mem_nil p hm

lemma nearestIdx_map_toQ_getD {ds : List RGB} {p : RGB} (hm : p ∈ ds) :
    ds.getD (nearestIdx (ds.map toQ) p) (0, 0, 0) = p := by
  obtain ⟨i, hi, hgi⟩ := List.mem_iff_getElem.mp hm
  have hj : nearestIdx (ds.map toQ) p < (ds.map toQ).length :=
    nearestIdx_lt_length (map_toQ_ne_nil hm) p
  have hjlen : nearestIdx (ds.map toQ) p < ds.length := by simpa using hj
  have hmin := @nearestIdx_min (ds.map toQ) p i (by simpa using hi)
  have egi : (ds.map toQ).getD i (0, 0, 0) = toQ p := by
    rw [List.getD_eq_getElem _ _ (by simpa using hi), List.getElem_map]
    rw [hgi]
  have egj : (ds.map toQ).getD (nearestIdx (ds.map toQ) p) (0, 0, 0) =
      toQ (ds.getD (nearestIdx (ds.map toQ) p) (0, 0, 0)) := by
    rw [List.getD_eq_getElem _ _ hj, List.getElem_map, List.getD_eq_getElem _ _ hjlen]
  rw [egi, egj, dist2_toQ_self] at hmin
  exact dist2_toQ_eq_zero (le_antisymm hmin (dist2_nonneg _ _))

lemma nearestIdx_map_toQ_eq_iff {ds : List RGB} (hnd : ds.Nodup) {p : RGB} (hm : p ∈ ds)
    {j : ℕ} (hj : j < ds.length) :
    nearestIdx (ds.map toQ) p = j ↔ ds.getD j (0, 0, 0) = p := by
  constructor
  · rintro rfl
    exact nearestIdx_map_toQ_getD hm
  · intro hget
    have h1 : ds.getD (nearestIdx (ds.map toQ) p) (0, 0, 0) = p := nearestIdx_map_toQ_getD hm
    have hlt : nearestIdx (ds.map toQ) p < ds.length := by
      simpa using nearestIdx_lt_length (map_toQ_ne_nil hm) p
    rw [List.getD_eq_getElem _ _ hlt] at h1
    rw [List.getD_eq_getElem _ _ hj] at hget
    exact hnd.getElem_inj_iff.mp (h1.trans hget.symm)

lemma sum_div_length_const {x : ℚ} {l : List ℚ} (hne : l ≠ []) (hall : ∀ y ∈ l, y = x) :
    l.sum / l.length = x := by
  have h2 : (l.length : ℚ) ≠ 0 :=
    Nat.cast_ne_zero.mpr (by simpa [List.length_eq_zero] using hne)
  have hsum : l.sum = l.length • x := by
    conv_lhs => rw [List.eq_replicate_of_mem hall]
    rw [List.sum_replicate]
  rw [hsum, nsmul_eq_mul]
  exact mul_div_cancel_left₀ x h2

lemma channel_mean_const {l : List RGB} {c : RGB} (hne : l ≠ []) (hall : ∀ p ∈ l, p = c)
    (f : RGB → ℚ) : (l.map f).sum / (l.length : ℚ) = f c := by
  have h : (l.map f).sum / ((l.map f).length : ℚ) = f c := by
    apply sum_div_length_const
    · simpa [List.map_eq_nil] using hne
    · intro y hy
      obtain ⟨p, hp, rfl⟩ := List.mem_map.mp hy
      rw [hall p hp]
  simpa [List.length_map] using h

lemma meanRGB_const {l : List RGB} {c : RGB} (hne : l ≠ []) (hall : ∀ p ∈ l, p = c) :
    meanRGB l = toQ c := by
  unfold meanRGB toQ
  rw [channel_mean_const hne hall, channel_mean_const hne hall, channel_mean_const hne hall]

lemma lloydUpdate_length (pts : List RGB) (cs : List QRGB) :
    (lloydUpdate pts cs).length = cs.length := by
  simp [lloydUpdate]

lemma lloydIter_length (pts : List RGB) :
    ∀ (n : ℕ) (cs : List QRGB), (lloydIter pts n cs).length = cs.length
  | 0, cs => rfl
  | n + 1, cs => by
    simp only [lloydIter]
    split
    · rfl
    · rw [lloydIter_length pts n _, lloydUpdate_length]

lemma lloydIter_fixed {pts : List RGB} {cs : List QRGB} (h : lloydUpdate pts cs = cs) :
    ∀ n, lloydIter pts n cs = cs
  | 0 => rfl
  | _ + 1 => by simp only [lloydIter, h, if_pos]

lemma lloydUpdate_getElem (pts : List RGB) (cs : List QRGB) {j : ℕ}
    (hj : j < (lloydUpdate pts cs).length) :
    (lloydUpdate pts cs)[j] =
      updateEntry (pts.filter fun p => nearestIdx cs p = j) (cs.getD j (0, 0, 0)) := by
  unfold lloydUpdate at hj ⊢
  rw [List.getElem_map, List.getElem_range]

lemma astypeUint8_natCast {n : ℕ} (h : n < 256) : astypeUint8 ((n : ℕ) : ℚ) = n := by
  unfold astypeUint8 truncQ
  rw [if_pos (by positivity), Int.floor_natCast,
    Int.emod_eq_of_lt (by positivity) (by exact_mod_cast h)]
  exact Int.toNat_natCast n

lemma truncRGB_toQ {p : RGB} (h : valid8 p) : truncRGB (toQ p) = p := by
  obtain ⟨h1, h2, h3⟩ := h
  unfold truncRGB toQ
  rw [astypeUint8_natCast h1, astypeUint8_natCast h2, astypeUint8_natCast h3]

lemma kmeansInit_length (seed k : ℕ) (pts : List RGB) :
    (kmeansInit seed k pts).length = min k (countUnique pts) := by
  simp [kmeansInit, countUnique]

lemma csF_length (seed K : ℕ) (pts : List RGB) :
    (lloydIter pts 300 (kmeansInit seed (effectiveK K pts) pts)).length =
      min K (countUnique pts) := by
  rw [lloydIter_length, kmeansInit_length]
  unfold effectiveK
  split <;> omega

lemma clusterPalette_length (seed K : ℕ) (pts : List RGB) :
    (clusterPalette seed K pts).length = min K (countUnique pts) := by
  unfold clusterPalette clusterCenters kmeansSpec
  rw [List.length_map, lloydUpdate_length, csF_length]

lemma countUnique_pos {pts : List RGB} (hne : pts ≠ []) : 1 ≤ countUnique pts := by
  unfold countUnique
  have : pts.dedup ≠ [] := by simp [List.dedup_eq_nil, hne]
  have := List.length_pos.mpr this
  omega

lemma csF_ne_nil (seed K : ℕ) {pts : List RGB} (hK : 1 ≤ K) (hne : pts ≠ []) :
    lloydIter pts 300 (kmeansInit seed (effectiveK K pts) pts) ≠ [] := by
  intro h0
  have hlen := csF_length seed K pts
  rw [h0] at hlen
  have hD := countUnique_pos hne
  simp at hlen
  omega

lemma clusterLabels_def (seed K : ℕ) (pts : List RGB) :
    clusterLabels seed K pts =
      pts.map (nearestIdx (lloydIter pts 300 (kmeansInit seed (effectiveK K pts) pts))) := rfl

lemma lloydUpdate_getD (pts : List RGB) (cs : List QRGB) {j : ℕ} (hj : j < cs.length) :
    (lloydUpdate pts cs).getD j (0, 0, 0) =
      updateEntry (pts.filter fun p => nearestIdx cs p = j) (cs.getD j (0, 0, 0)) := by
  have hj2 : j < (lloydUpdate pts cs).length := by rw [lloydUpdate_length]; exact hj
  rw [List.getD_eq_getElem _ _ hj2, lloydUpdate_getElem pts cs hj2]

lemma lloydUpdate_dedup_fixed {pts ds : List RGB} (hnd : ds.Nodup)
    (hmem : ∀ q : RGB, q ∈ ds ↔ q ∈ pts) :
    lloydUpdate pts (ds.map toQ) = ds.map toQ := by
  apply List.ext_getElem
  · rw [lloydUpdate_length]
  intro j h1 h2
  rw [lloydUpdate_getElem pts _ h1]
  have hjds : j < ds.length := by simpa using h2
  have hcmem : ds[j] ∈ ds := List.getElem_mem hjds
  have hfilter : (pts.filter fun p => nearestIdx (ds.map toQ) p = j) =
      pts.filter fun p => p = ds[j] := by
    apply List.filter_congr
    intro p hp
    apply decide_eq_decide.mpr
    rw [nearestIdx_map_toQ_eq_iff hnd ((hmem p).mpr hp) hjds,
      List.getD_eq_getElem _ _ hjds]
    exact eq_comm
  have hcpts : ds[j] ∈ pts := (hmem _).mp hcmem
  have hmemf : ds[j] ∈ pts.filter fun p => p = ds[j] :=
    List.mem_filter.mpr ⟨hcpts, by simp⟩
  have hfne : (pts.filter fun p => p = ds[j]) ≠ [] := by
    intro hnil
    rw [hnil] at hmemf
    exact List.not_mem_nil _ hmemf
  have hallf : ∀ p ∈ pts.filter fun p => p = ds[j], p = ds[j] := by
    intro p hp
    simpa using List.of_mem_filter hp
  rw [hfilter]
  unfold updateEntry
  rw [if_neg hfne, meanRGB_const hfne hallf, List.getElem_map]

lemma cluster_noop (seed K : ℕ) {pts : List RGB} (hne : pts ≠ [])
    (hv : ∀ p ∈ pts, valid8 p) (hDK : countUnique pts ≤ K) :
    clusterOutput seed K pts = pts := by
  have hek : effectiveK K pts = countUnique pts := if_pos hDK
  have hnd : (pts.dedup.rotate (seed % max 1 pts.dedup.length)).Nodup :=
    List.nodup_rotate.mpr (List.nodup_dedup pts)
  have hmem : ∀ q : RGB, q ∈ pts.dedup.rotate (seed % max 1 pts.dedup.length) ↔ q ∈ pts := by
    intro q
    rw [List.mem_rotate, List.mem_dedup]
  have hdslen : (pts.dedup.rotate (seed % max 1 pts.dedup.length)).length = countUnique pts := by
    rw [List.length_rotate]
    rfl
  have hinit : kmeansInit seed (effectiveK K pts) pts =
      (pts.dedup.rotate (seed % max 1 pts.dedup.length)).map toQ := by
    unfold kmeansInit
    rw [hek, List.take_all_of_le (le_of_eq hdslen)]
  have hfixed := lloydUpdate_dedup_fixed hnd hmem
  have hiter : lloydIter pts 300 (kmeansInit seed (effectiveK K pts) pts) =
      (pts.dedup.rotate (seed % max 1 pts.dedup.length)).map toQ := by
    rw [hinit]
    exact lloydIter_fixed hfixed 300
  unfold clusterOutput clusterLabels clusterPalette clusterCenters kmeansSpec
  simp only
  rw [hiter, hfixed, List.map_map]
  have hpal : ((pts.dedup.rotate (seed % max 1 pts.dedup.length)).map toQ).map truncRGB =
      pts.dedup.rotate (seed % max 1 pts.dedup.length) := by
    rw [List.map_map]
    have hid : ∀ p ∈ pts.dedup.rotate (seed % max 1 pts.dedup.length),
        (truncRGB ∘ toQ) p = id p := by
      intro p hp
      exact truncRGB_toQ (hv p ((hmem p).mp hp))
    rw [List.map_congr_left hid, List.map_id]
  rw [hpal]
  have hid2 : ∀ p ∈ pts,
      ((fun l => (pts.dedup.rotate (seed % max 1 pts.dedup.length)).getD l (0, 0, 0)) ∘
        nearestIdx ((pts.dedup.rotate (seed % max 1 pts.dedup.length)).map toQ)) p = id p := by
    intro p hp
    exact nearestIdx_map_toQ_getD ((hmem p).mpr hp)
  rw [List.map_congr_left hid2, List.map_id]

lemma clusterLabels_getD_lt (seed K : ℕ) {pts : List RGB} (hK : 1 ≤ K) (hne : pts ≠ [])
    {i : ℕ} (hi : i < pts.length) :
    (clusterLabels seed K pts).getD i 0 < (clusterPalette seed K pts).length := by
  rw [clusterLabels_def, clusterPalette_length,
    List.getD_eq_getElem _ _ (by simpa using hi), List.getElem_map]
  have h := nearestIdx_lt_length (csF_ne_nil seed K hK hne) pts[i]
  rwa [csF_length] at h

lemma clusterOutput_getD_eq (seed K : ℕ) (pts : List RGB) {i : ℕ} (hi : i < pts.length) :
    (clusterOutput seed K pts).getD i (0, 0, 0) =
      (clusterPalette seed K pts).getD ((clusterLabels seed K pts).getD i 0) (0, 0, 0) := by
  unfold clusterOutput
  have hlab : i < (clusterLabels seed K pts).length := by
    rw [clusterLabels_def]
    simpa using hi
  rw [List.getD_eq_getElem _ _ (by simpa using hlab), List.getElem_map,
    List.getD_eq_getElem _ _ hlab]

lemma clusterOutput_mem_palette (seed K : ℕ) {pts : List RGB} (hK : 1 ≤ K) (hne : pts ≠ []) :
    ∀ x ∈ clusterOutput seed K pts, x ∈ clusterPalette seed K pts := by
  intro x hx
  unfold clusterOutput at hx
  obtain ⟨l, hl, rfl⟩ := List.mem_map.mp hx
  rw [clusterLabels_def] at hl
  obtain ⟨p, hp, rfl⟩ := List.mem_map.mp hl
  have hlt : nearestIdx (lloydIter pts 300 (kmeansInit seed (effectiveK K pts) pts)) p <
      (clusterPalette seed K pts).length := by
    have h := nearestIdx_lt_length (csF_ne_nil seed K hK hne) p
    rw [clusterPalette_length]
    rwa [csF_length] at h
  rw [List.getD_eq_getElem _ _ hlt]
  exact List.getElem_mem hlt

lemma getD_map_truncRGB {cs : List QRGB} {j : ℕ} (hj : j < cs.length) :
    (cs.map truncRGB).getD j (0, 0, 0) = truncRGB (cs.getD j (0, 0, 0)) := by
  rw [List.getD_eq_getElem _ _ (by simpa using hj), List.getElem_map,
    List.getD_eq_getElem _ _ hj]

lemma clusterPalette_getD_eq (seed K : ℕ) (pts : List RGB) {j : ℕ}
    (hj : j < min K (countUnique pts)) :
    (clusterPalette seed K pts).getD j (0, 0, 0) =
      truncRGB (updateEntry (clusterMembersFinal seed K pts j)
        ((lloydIter pts 300 (kmeansInit seed (effectiveK K pts) pts)).getD j (0, 0, 0))) := by
  have hjc : j < (clusterCenters seed K pts).length := by
    rw [show clusterCenters seed K pts =
        lloydUpdate pts (lloydIter pts 300 (kmeansInit seed (effectiveK K pts) pts)) from rfl,
      lloydUpdate_length, csF_length]
    exact hj
  have h1 : (clusterPalette seed K pts).getD j (0, 0, 0) =
      truncRGB ((clusterCenters seed K pts).getD j (0, 0, 0)) := getD_map_truncRGB hjc
  rw [h1]
  have h2 : (clusterCenters seed K pts).getD j (0, 0, 0) =
      (lloydUpdate pts
        (lloydIter pts 300 (kmeansInit seed (effectiveK K pts) pts))).getD j (0, 0, 0) := rfl
  rw [h2, lloydUpdate_getD pts _ (by rwa [csF_length])]
  rfl

lemma sum_div_length_bounds {l : List ℚ} (hne : l ≠ []) (h0 : ∀ x ∈ l, 0 ≤ x)
    (h255 : ∀ x ∈ l, x ≤ 255) : 0 ≤ l.sum / l.length ∧ l.sum / l.length ≤ 255 := by
  have hlpos : 0 < (l.length : ℚ) := by
    have := List.length_pos.mpr hne
    exact_mod_cast this
  constructor
  · exact div_nonneg (List.sum_nonneg h0) (le_of_lt hlpos)
  · rw [div_le_iff hlpos]
    calc l.sum ≤ l.length • (255 : ℚ) := List.sum_le_card_nsmul l 255 h255
    _ = 255 * l.length := by rw [nsmul_eq_mul]; ring

lemma channel_mean_bounds {m : List RGB} (hne : m ≠ []) (f : RGB → ℚ)
    (h0 : ∀ p ∈ m, 0 ≤ f p) (h255 : ∀ p ∈ m, f p ≤ 255) :
    0 ≤ (m.map f).sum / (m.length : ℚ) ∧ (m.map f).sum / (m.length : ℚ) ≤ 255 := by
  have h := sum_div_length_bounds (l := m.map f)
    (by simpa [List.map_eq_nil] using hne)
    (by intro y hy; obtain ⟨p, hp, rfl⟩ := List.mem_map.mp hy; exact h0 p hp)
    (by intro y hy; obtain ⟨p, hp, rfl⟩ := List.mem_map.mp hy; exact h255 p hp)
  simpa [List.length_map] using h

lemma meanRGB_bounds {m : List RGB} (hne : m ≠ []) (hv : ∀ p ∈ m, valid8 p) :
    (0 ≤ (meanRGB m).1 ∧ (meanRGB m).1 ≤ 255) ∧
    (0 ≤ (meanRGB m).2.1 ∧ (meanRGB m).2.1 ≤ 255) ∧
    (0 ≤ (meanRGB m).2.2 ∧ (meanRGB m).2.2 ≤ 255) := by
  refine ⟨?_, ?_, ?_⟩
  · exact channel_mean_bounds hne _ (fun p _ => by positivity)
      (fun p hp => by
        have := (hv p hp).1
        have h : (p.1 : ℚ) ≤ 255 := by exact_mod_cast Nat.lt_succ_iff.mp this
        exact h)
  · exact channel_mean_bounds hne _ (fun p _ => by positivity)
      (fun p hp => by
        have := (hv p hp).2.1
        have h : (p.2.1 : ℚ) ≤ 255 := by exact_mod_cast Nat.lt_succ_iff.mp this
        exact h)
  · exact channel_mean_bounds hne _ (fun p _ => by positivity)
      (fun p hp => by
        have := (hv p hp).2.2
        have h : (p.2.2 : ℚ) ≤ 255 := by exact_mod_cast Nat.lt_succ_iff.mp this
        exact h)

lemma astypeUint8_of_bounds {q : ℚ} (h0 : 0 ≤ q) (h255 : q ≤ 255) :
    astypeUint8 q = ⌊q⌋.toNat := by
  unfold astypeUint8 truncQ
  rw [if_pos h0]
  have hup : ⌊q⌋ < 256 := by
    have h1 : ⌊q⌋ ≤ ⌊(255 : ℚ)⌋ := Int.floor_le_floor h255
    have h2 : ⌊(255 : ℚ)⌋ = 255 := by norm_num
    omega
  rw [Int.emod_eq_of_lt (Int.floor_nonneg.mpr h0) hup]

lemma truncRGB_eq_floor {c : QRGB} (h1 : 0 ≤ c.1 ∧ c.1 ≤ 255) (h2 : 0 ≤ c.2.1 ∧ c.2.1 ≤ 255)
    (h3 : 0 ≤ c.2.2 ∧ c.2.2 ≤ 255) :
    truncRGB c = (⌊c.1⌋.toNat, ⌊c.2.1⌋.toNat, ⌊c.2.2⌋.toNat) := by
  unfold truncRGB
  rw [astypeUint8_of_bounds h1.1 h1.2, astypeUint8_of_bounds h2.1 h2.2,
    astypeUint8_of_bounds h3.1 h3.2]

lemma clusterMembersFinal_subset (seed K : ℕ) (pts : List RGB) (j : ℕ) :
    ∀ p ∈ clusterMembersFinal seed K pts j, p ∈ pts := by
  intro p hp
  exact (List.mem_filter.mp hp).1

lemma clusterMembersFinal_of_single (seed : ℕ) {pts : List RGB} (hne : pts ≠ []) :
    clusterMembersFinal seed 1 pts 0 = pts := by
  unfold clusterMembersFinal
  rw [List.filter_eq_self]
  intro p hp
  have hlen : (lloydIter pts 300 (kmeansInit seed (effectiveK 1 pts) pts)).length = 1 := by
    rw [csF_length]
    have := countUnique_pos hne
    omega
  have hlt := @nearestIdx_lt_length
    (lloydIter pts 300 (kmeansInit seed (effectiveK 1 pts) pts))
    (by intro h0; rw [h0] at hlen; simp at hlen) p
  rw [hlen] at hlt
  simp [Nat.lt_one_iff.mp hlt]

/-- C1: the claim states that a sample v quantizes to
round-to-nearest((floor(v/255*N)/(N-1))*255) clamped to [0,255], with 0 and
255 fixed points for N = 2.  The code instead truncates with astype(np.uint8),
and for v = 255 the level floor(255/255*N) = N overflows the level range, so
the rescaled value exceeds 255 and wraps modulo 256: N = 2 maps white to 254
(the spec formula gives 255) and N = 16 maps white to 16; truncation also
differs from rounding away from the wrap, with N = 3 mapping 100 to 127 where
the spec formula gives 128. -/
theorem c1_uniform_wraps_at_white :
    uqCore 2 255 = 254 ∧ uqSpecSample 2 255 = 255 ∧ uqCore 16 255 = 16 ∧
    uqCore 3 100 = 127 ∧ uqSpecSample 3 100 = 128 := by
  refine ⟨?_, ?_, ?_, ?_, ?_⟩
  · rw [uqCore_eq_uqNat (by norm_num)]; decide
  · norm_num [uqSpecSample, round_eq]
    decide
  · rw [uqCore_eq_uqNat (by norm_num)]; decide
  · rw [uqCore_eq_uqNat (by norm_num)]; decide
  · norm_num [uqSpecSample, round_eq]
    decide

/-- C2: with num_shades = 1 the divisor num_shades - 1 is zero, so every
quantized sample is an undefined value, and the main path of
color_quantizer.py still saves an output file holding those samples; no
InvalidShadeCount error exists in the code. -/
theorem c2_shade_one_divides_by_zero_and_still_saves :
    (∀ v : ℕ, uqSample 1 v = none) ∧
    uniformMainSave 1 [((0, 0, 0), 255)] = some ([none], [255]) := by
  constructor
  · exact uqSample_one
  · simp [uniformMainSave, uqSample_one]

/-- C7 counterexample: the per-sample quantizer is not idempotent on
grid-aligned inputs.  For N = 2 the top grid value is 255, and applying the
quantizer twice gives 255 while once gives 254; for N = 100 the grid value
5 (level 2) goes to 2 in one application and to 0 in two. -/
theorem c7_counterexample :
    (gridVal 2 1 = 255 ∧
      uqCore 2 (uqCore 2 (gridVal 2 1)) ≠ uqCore 2 (gridVal 2 1)) ∧
    (gridVal 100 2 = 5 ∧
      uqCore 100 (uqCore 100 (gridVal 100 2)) ≠ uqCore 100 (gridVal 100 2)) := by
  simp only [uqCore_eq_uqNat (show (2 : ℕ) ≤ 2 by norm_num),
    uqCore_eq_uqNat (show (2 : ℕ) ≤ 100 by norm_num),
    gridVal_eq_gridValNat (show (2 : ℕ) ≤ 2 by norm_num),
    gridVal_eq_gridValNat (show (2 : ℕ) ≤ 100 by norm_num)]
  decide

/-- C7 amended: for shade counts 2 ≤ N ≤ 27 the per-sample quantizer is
idempotent on the grid values of levels l ≤ N - 2; the top level N - 1
(value 255) wraps for every N, and for N ≥ 28 idempotence also fails on
inner grid values. -/
theorem c7_amended_idempotent_on_inner_grid :
    ∀ N < 28, 2 ≤ N → ∀ l < N - 1,
      uqCore N (uqCore N (gridVal N l)) = uqCore N (gridVal N l) := by
  have hnat : ∀ N < 28, 2 ≤ N → ∀ l < N - 1,
      uqNat N (uqNat N (gridValNat N l)) = uqNat N (gridValNat N l) := by decide
  intro N hN h2 l hl
  simp only [uqCore_eq_uqNat h2, gridVal_eq_gridValNat h2]
  exact hnat N hN h2 l hl

/-- Witness for C7: the amended idempotence applied at N = 16, level 7. -/
theorem c7_amended_witness :
    16 < 28 ∧ 2 ≤ 16 ∧ 7 < 16 - 1 ∧
    uqCore 16 (uqCore 16 (gridVal 16 7)) = uqCore 16 (gridVal 16 7) :=
  ⟨by decide, by decide, by decide,
    c7_amended_idempotent_on_inner_grid 16 (by decide) (by decide) 7 (by decide)⟩

/-- C6 counterexample: a 3-color image quantized with N = 2 shades keeps all
3 distinct colors, although the requested count 2 is below the original
distinct count 3, refuting the claim that equality of the before and after
color counts occurs only when the requested count is at least the original
distinct count. -/
theorem c6_counterexample :
    countUnique (uniformQuantizeRGB 2 [(0, 0, 0), (0, 0, 128), (0, 128, 0)]) =
      countUnique [(0, 0, 0), (0, 0, 128), (0, 128, 0)] ∧
    ¬ countUnique [(0, 0, 0), (0, 0, 128), (0, 128, 0)] ≤ 2 := by
  have h : uniformQuantizeRGB 2 [(0, 0, 0), (0, 0, 128), (0, 128, 0)] =
      [(0, 0, 0), (0, 0, 255), (0, 255, 0)] := by
    simp only [uniformQuantizeRGB, List.map_cons, List.map_nil, uqRGB,
      uqCore_eq_uqNat (show (2 : ℕ) ≤ 2 by norm_num)]
    decide
  rw [h]
  decide

/-- C10: a path ending in .png (case-insensitive) is loaded in RGBA mode and
the quantized output keeps the alpha channel, hence 4 channels, whatever the
native channel count; a non-png input whose native mode carries no alpha
letter produces a 3-channel RGB output. -/
theorem c10_png_loads_rgba :
    (∀ path native : List Char,
      endsWithPng path = true → outputChannels path native = 4) ∧
    (∀ path native : List Char,
      endsWithPng path = false → 'A' ∉ native → outputChannels path native = 3) := by
  constructor
  · intro path native h
    simp [outputChannels, loadImageMode, h]
  · intro path native h hA
    simp [outputChannels, loadImageMode, h, hA]

/-- Witness for C10: a 3-channel png input gives a 4-channel output, and a
3-channel jpg input gives a 3-channel output. -/
theorem c10_witness :
    outputChannels ('a' :: '.' :: 'P' :: 'n' :: 'G' :: []) ('R' :: 'G' :: 'B' :: []) = 4 ∧
    outputChannels ('a' :: '.' :: 'j' :: 'p' :: 'g' :: []) ('R' :: 'G' :: 'B' :: []) = 3 :=
  ⟨c10_png_loads_rgba.1 _ _ (by decide),
   c10_png_loads_rgba.2 _ _ (by decide) (by decide)⟩

/-- C5: under both quantizers the alpha channel of the output equals the
alpha channel of the input sample for sample, and splitting followed by
merging with no quantization in between reproduces the original buffer. -/
theorem c5_alpha_preserved_and_roundtrip :
    (∀ (N : ℕ) (img : List RGBA),
      (uniformQuantizeRGBA N img).map Prod.snd = img.map Prod.snd) ∧
    (∀ (K : ℕ) (img : List RGBA),
      (clusterQuantizeRGBA K img).map Prod.snd = img.map Prod.snd) ∧
    (∀ img : List RGBA, mergeRGBA (splitRGBA img).1 (splitRGBA img).2 = img) := by
  refine ⟨?_, ?_, ?_⟩
  · intro N img
    unfold uniformQuantizeRGBA mergeRGBA splitRGBA uniformQuantizeRGB
    rw [List.map_snd_zip]
    simp
  · intro K img
    unfold clusterQuantizeRGBA mergeRGBA
    rw [List.map_snd_zip]
    simp [clusterOutput_length]
  · intro img
    simp [mergeRGBA, splitRGBA, List.zip_map']

/-- C8: the clustering call pins random_state to 42, so the ambient random
state of two runs never reaches it: identical input buffers and requested
counts give identical palettes, labels and output buffers. -/
theorem c8_cluster_runs_deterministic :
    ∀ (r1 r2 K : ℕ) (pts : List RGB), shaderDownRun r1 K pts = shaderDownRun r2 K pts :=
  fun _ _ _ _ => rfl

lemma countUnique_eq_card (l : List RGB) : countUnique l = l.toFinset.card :=
  (List.card_toFinset l).symm

lemma countUnique_map_le (f : RGB → RGB) (l : List RGB) :
    countUnique (l.map f) ≤ countUnique l := by
  rw [countUnique_eq_card, countUnique_eq_card]
  have h : (l.map f).toFinset = l.toFinset.image f := by
    ext x
    simp [List.mem_map]
  rw [h]
  exact Finset.card_image_le

lemma countUnique_clusterOutput_le (seed K : ℕ) {pts : List RGB} (hK : 1 ≤ K)
    (hne : pts ≠ []) :
    countUnique (clusterOutput seed K pts) ≤ min K (countUnique pts) := by
  rw [countUnique_eq_card]
  calc (clusterOutput seed K pts).toFinset.card
      ≤ (clusterPalette seed K pts).toFinset.card := by
        apply Finset.card_le_card
        intro x hx
        rw [List.mem_toFinset] at hx ⊢
        exact clusterOutput_mem_palette seed K hK hne x hx
    _ ≤ (clusterPalette seed K pts).length := List.toFinset_card_le _
    _ = min K (countUnique pts) := clusterPalette_length seed K pts

/-- C3: the effective palette size is the requested cluster count capped at the
number of distinct input colors, and when the distinct count is at most the
request the quantization is a no-op reproducing the input buffer. -/
theorem c3_effective_palette_and_noop (K : ℕ) (pts : List RGB) (hK : 1 ≤ K)
    (hne : pts ≠ []) (hv : ∀ p ∈ pts, valid8 p) :
    (clusterPalette 42 K pts).length = min K (countUnique pts) ∧
    (countUnique pts ≤ K → clusterOutput 42 K pts = pts) :=
  ⟨clusterPalette_length 42 K pts, fun hDK => cluster_noop 42 K hne hv hDK⟩

/-- Witness for C3: a 3-pixel buffer with 2 distinct colors, requested K = 5:
the palette has min 5 2 entries and the output buffer equals the input. -/
theorem c3_witness :
    (clusterPalette 42 5 [(0, 0, 0), (10, 20, 30), (0, 0, 0)]).length =
      min 5 (countUnique [(0, 0, 0), (10, 20, 30), (0, 0, 0)]) ∧
    (countUnique [(0, 0, 0), (10, 20, 30), (0, 0, 0)] ≤ 5 →
      clusterOutput 42 5 [(0, 0, 0), (10, 20, 30), (0, 0, 0)] =
        [(0, 0, 0), (10, 20, 30), (0, 0, 0)]) :=
  c3_effective_palette_and_noop 5 _ (by norm_num) (by decide) (by decide)

/-- C4: every output pixel is the palette entry selected by the training-time
cluster label of that pixel, and in particular a member of the palette. -/
theorem c4_output_from_training_labels (K : ℕ) (pts : List RGB) (hK : 1 ≤ K)
    (hne : pts ≠ []) (i : ℕ) (hi : i < pts.length) :
    (clusterOutput 42 K pts).getD i (0, 0, 0) =
      (clusterPalette 42 K pts).getD ((clusterLabels 42 K pts).getD i 0) (0, 0, 0) ∧
    (clusterOutput 42 K pts).getD i (0, 0, 0) ∈ clusterPalette 42 K pts := by
  have h1 := clusterOutput_getD_eq 42 K pts hi
  have h2 := clusterLabels_getD_lt 42 K hK hne hi
  refine ⟨h1, ?_⟩
  rw [h1, List.getD_eq_getElem _ _ h2]
  exact List.getElem_mem h2

/-- Witness for C4 at a 2-pixel buffer clustered to one color. -/
theorem c4_witness :
    (clusterOutput 42 1 [(10, 10, 10), (11, 11, 11)]).getD 0 (0, 0, 0) =
      (clusterPalette 42 1 [(10, 10, 10), (11, 11, 11)]).getD
        ((clusterLabels 42 1 [(10, 10, 10), (11, 11, 11)]).getD 0 0) (0, 0, 0) ∧
    (clusterOutput 42 1 [(10, 10, 10), (11, 11, 11)]).getD 0 (0, 0, 0) ∈
      clusterPalette 42 1 [(10, 10, 10), (11, 11, 11)] :=
  c4_output_from_training_labels 1 _ (by norm_num) (by decide) 0 (by decide)

/-- C9: each palette entry of a nonempty cluster is the per-channel mean of
the finally assigned member samples, truncated toward zero; the mean of 8-bit
samples lies in [0, 255], so the astype cast never wraps and equals the plain
floor. -/
theorem c9_centroid_truncated_mean (K : ℕ) (pts : List RGB) (hv : ∀ p ∈ pts, valid8 p)
    (j : ℕ) (hj : j < min K (countUnique pts))
    (hm : clusterMembersFinal 42 K pts j ≠ []) :
    (clusterPalette 42 K pts).getD j (0, 0, 0) =
      truncRGB (meanRGB (clusterMembersFinal 42 K pts j)) ∧
    (0 ≤ (meanRGB (clusterMembersFinal 42 K pts j)).1 ∧
      (meanRGB (clusterMembersFinal 42 K pts j)).1 ≤ 255) ∧
    (0 ≤ (meanRGB (clusterMembersFinal 42 K pts j)).2.1 ∧
      (meanRGB (clusterMembersFinal 42 K pts j)).2.1 ≤ 255) ∧
    (0 ≤ (meanRGB (clusterMembersFinal 42 K pts j)).2.2 ∧
      (meanRGB (clusterMembersFinal 42 K pts j)).2.2 ≤ 255) ∧
    truncRGB (meanRGB (clusterMembersFinal 42 K pts j)) =
      (⌊(meanRGB (clusterMembersFinal 42 K pts j)).1⌋.toNat,
       ⌊(meanRGB (clusterMembersFinal 42 K pts j)).2.1⌋.toNat,
       ⌊(meanRGB (clusterMembersFinal 42 K pts j)).2.2⌋.toNat) := by
  have hvm : ∀ p ∈ clusterMembersFinal 42 K pts j, valid8 p :=
    fun p hp => hv p (clusterMembersFinal_subset 42 K pts j p hp)
  have hb := meanRGB_bounds hm hvm
  have hpal : (clusterPalette 42 K pts).getD j (0, 0, 0) =
      truncRGB (meanRGB (clusterMembersFinal 42 K pts j)) := by
    rw [clusterPalette_getD_eq 42 K pts hj]
    unfold updateEntry
    rw [if_neg hm]
  exact ⟨hpal, hb.1, hb.2.1, hb.2.2, truncRGB_eq_floor hb.1 hb.2.1 hb.2.2⟩

/-- Witness for C9: with K = 1 the single cluster holds both pixels, and the
palette entry is the truncated mean. -/
theorem c9_witness :
    (clusterPalette 42 1 [(10, 10, 10), (11, 11, 11)]).getD 0 (0, 0, 0) =
      truncRGB (meanRGB (clusterMembersFinal 42 1 [(10, 10, 10), (11, 11, 11)] 0)) ∧
    (0 ≤ (meanRGB (clusterMembersFinal 42 1 [(10, 10, 10), (11, 11, 11)] 0)).1 ∧
      (meanRGB (clusterMembersFinal 42 1 [(10, 10, 10), (11, 11, 11)] 0)).1 ≤ 255) ∧
    (0 ≤ (meanRGB (clusterMembersFinal 42 1 [(10, 10, 10), (11, 11, 11)] 0)).2.1 ∧
      (meanRGB (clusterMembersFinal 42 1 [(10, 10, 10), (11, 11, 11)] 0)).2.1 ≤ 255) ∧
    (0 ≤ (meanRGB (clusterMembersFinal 42 1 [(10, 10, 10), (11, 11, 11)] 0)).2.2 ∧
      (meanRGB (clusterMembersFinal 42 1 [(10, 10, 10), (11, 11, 11)] 0)).2.2 ≤ 255) ∧
    truncRGB (meanRGB (clusterMembersFinal 42 1 [(10, 10, 10), (11, 11, 11)] 0)) =
      (⌊(meanRGB (clusterMembersFinal 42 1 [(10, 10, 10), (11, 11, 11)] 0)).1⌋.toNat,
       ⌊(meanRGB (clusterMembersFinal 42 1 [(10, 10, 10), (11, 11, 11)] 0)).2.1⌋.toNat,
       ⌊(meanRGB (clusterMembersFinal 42 1 [(10, 10, 10), (11, 11, 11)] 0)).2.2⌋.toNat) :=
  c9_centroid_truncated_mean 1 [(10, 10, 10), (11, 11, 11)] (by decide) 0 (by decide)
    (by rw [clusterMembersFinal_of_single 42 (by decide)]; decide)

/-- C6 amended: under both quantizers the distinct color count never
increases; for the Cluster Quantizer equality of the counts forces the
requested count to be at least the original distinct count, while for the
Uniform Quantizer equality can occur below the distinct count (see the
counterexample), so the equality clause is restricted to the cluster side. -/
theorem c6_amended_counts_never_increase :
    (∀ (N : ℕ) (pts : List RGB),
      countUnique (uniformQuantizeRGB N pts) ≤ countUnique pts) ∧
    (∀ (K : ℕ) (pts : List RGB), 1 ≤ K → pts ≠ [] →
      countUnique (clusterOutput 42 K pts) ≤ countUnique pts ∧
      (countUnique (clusterOutput 42 K pts) = countUnique pts →
        countUnique pts ≤ K)) := by
  constructor
  · intro N pts
    exact countUnique_map_le (uqRGB N) pts
  · intro K pts hK hne
    have h := countUnique_clusterOutput_le 42 K hK hne
    refine ⟨le_trans h (min_le_right _ _), fun he => ?_⟩
    rw [he] at h
    exact (le_min_iff.mp h).1

/-- Witness for C6 at concrete buffers for both quantizers. -/
theorem c6_amended_witness :
    countUnique (uniformQuantizeRGB 3 [((0 : ℕ), 0, 0), (40, 50, 60)]) ≤
      countUnique [((0 : ℕ), 0, 0), (40, 50, 60)] ∧
    (countUnique (clusterOutput 42 1 [((0 : ℕ), 0, 0), (40, 50, 60)]) ≤
      countUnique [((0 : ℕ), 0, 0), (40, 50, 60)] ∧
     (countUnique (clusterOutput 42 1 [((0 : ℕ), 0, 0), (40, 50, 60)]) =
        countUnique [((0 : ℕ), 0, 0), (40, 50, 60)] →
      countUnique [((0 : ℕ), 0, 0), (40, 50, 60)] ≤ 1)) :=
  ⟨c6_amended_counts_never_increase.1 3 _,
   c6_amended_counts_never_increase.2 1 _ (by norm_num) (by decide)⟩

end Milkfish
